import Mathlib

/-!
Shallow embedding of `src/contracts/NFT_Tipping_Jar.sol` (contract
`NFTTippingJarFHE`, Solidity 0.8.24 on the Zama FHEVM).

Modelling conventions:
* `Address`, `uint256` and ciphertext handles (`euint32` wrapped as
  `uint256`) are `Nat`.  Handle `0` is the null handle:
  `FHE.isInitialized` on the FHEVM is exactly a non-zero check.
* The FHE coprocessor is an explicit environment `FheEnv`: `pt` gives the
  plaintext stored behind each handle and `next` is the next fresh handle.
  `FHE.add` on `euint32` allocates a fresh handle whose plaintext is the
  sum of the operands modulo `2 ^ 32` (euint32 arithmetic wraps).
* `keccak256(abi.encode(cts, address(this)))` is idealised as an injective
  constructor `B32.keccak cts addr`; `B32.zero` is the default `bytes32(0)`
  stored in an untouched mapping slot.
* `FHE.requestDecryption` issues fresh, strictly increasing request ids;
  the model keeps the oracle counter in the field `nextRequestId`.
* `FHE.checkSignatures` is an abstract predicate passed to the callback.
* Each external function becomes `State -> args -> Except Err State`;
  an `Except.error` result models a revert, i.e. no state change at all.
* Solidity mappings become total functions with pointwise update `updMap`.
* Event emission is recorded in an append-only `events` list.
-/

namespace NFTTippingJar

abbrev Address := Nat

/-- Pointwise update of a mapping. -/
def updMap {α : Type} (f : Nat → α) (k : Nat) (v : α) : Nat → α :=
  fun k' => if k' = k then v else f k'

/-- bytes32 values that occur in the contract: the zero default or a
keccak hash of serialized ciphertexts bound to a contract address. -/
inductive B32 where
  | zero
  | keccak (cts : List Nat) (addr : Address)
deriving DecidableEq

/-- 2 ^ 32, the modulus of euint32 arithmetic. -/
def two32 : Nat := 4294967296

/-- The FHE coprocessor: plaintexts behind handles, and the next fresh
handle it will allocate. -/
structure FheEnv where
  pt : Nat → Nat
  next : Nat

/-- `FHE.add` on euint32: allocate a fresh handle whose plaintext is the
sum of the plaintexts of the operands modulo 2 ^ 32. Returns the updated
environment and the new handle. -/
def fheAdd (f : FheEnv) (a b : Nat) : FheEnv × Nat :=
  (⟨updMap f.pt f.next ((f.pt a + f.pt b) % two32), f.next + 1⟩, f.next)

/-- Decrypting a euint32 handle: its plaintext reduced to 32 bits. -/
def decrypt32 (f : FheEnv) (h : Nat) : Nat := f.pt h % two32

/-- `FHE.isInitialized`: the handle is not the null handle 0. -/
def isInitialized (h : Nat) : Bool := h != 0

/-- struct Tip -/
structure Tip where
  tipper : Address
  encryptedAmount : Nat
  encryptedMessagePart1 : Nat
  encryptedMessagePart2 : Nat
deriving DecidableEq

/-- struct Batch -/
structure Batch where
  id : Nat
  isOpen : Bool
  startTime : Nat
  closeTime : Nat
deriving DecidableEq

/-- struct DecryptionContext -/
structure DecryptionContext where
  batchId : Nat
  stateHash : B32
  processed : Bool
deriving DecidableEq

/-- Default value of a `Batch` storage slot / out-of-range read. -/
def bdef : Batch := ⟨0, false, 0, 0⟩

/-- Default value of a `Tip` read out of range. -/
def tdef : Tip := ⟨0, 0, 0, 0⟩

/-- Default value of an untouched `decryptionContexts` mapping slot. -/
def dctxDefault : DecryptionContext := ⟨0, B32.zero, false⟩

/-- The events declared by the contract. -/
inductive Event where
  | OwnershipTransferred (previousOwner newOwner : Address)
  | ProviderAdded (provider : Address)
  | ProviderRemoved (provider : Address)
  | Paused (account : Address)
  | Unpaused (account : Address)
  | CooldownSecondsSet (oldCooldownSeconds newCooldownSeconds : Nat)
  | BatchOpened (batchId startTime : Nat)
  | BatchClosed (batchId closeTime tipCount : Nat)
  | TipSubmitted (tipper : Address) (batchId tipIndex : Nat)
  | DecryptionRequested (requestId batchId : Nat) (stateHash : B32)
  | DecryptionCompleted (requestId batchId totalAmount : Nat)
deriving DecidableEq

/-- The custom errors declared by the contract, plus `Panic` for the
Solidity out-of-bounds panic raised by the `batches[ctx.batchId]` storage
read in `myCallback`. -/
inductive Err where
  | NotOwner
  | NotProvider
  | PausedState
  | CooldownActive
  | BatchNotOpen
  | BatchOpen
  | InvalidBatch
  | ReplayAttempt
  | StateMismatch
  | InvalidProof
  | NotInitialized
  | Panic
deriving DecidableEq

/-- The full contract storage, together with the modelled environment
(FHE coprocessor, oracle request counter) and the emitted events. -/
structure State where
  owner : Address
  isProvider : Address → Bool
  paused : Bool
  cooldownSeconds : Nat
  lastSubmissionTime : Address → Nat
  lastDecryptionRequestTime : Address → Nat
  tips : List Tip
  batches : List Batch
  batchTipCount : Nat → Nat
  batchTotalEncryptedAmount : Nat → Nat
  decryptionContexts : Nat → DecryptionContext
  fhe : FheEnv
  nextRequestId : Nat
  selfAddr : Address
  events : List Event

/-- `batches[batches.length - 1]`, the latest batch. -/
def lastBatch (s : State) : Batch := s.batches.getD (s.batches.length - 1) bdef

/-- `_hashCiphertexts`: keccak over the serialized handles and the
address of the contract itself. -/
def hashCiphertexts (cts : List Nat) (addr : Address) : B32 := B32.keccak cts addr

/-- The constructor: deployer becomes owner and provider, cooldown 60s,
sentinel batch 0 pushed closed.  `f0` is the initial state of the FHE
coprocessor environment. -/
def initialState (deployer selfAddr : Address) (f0 : FheEnv) : State where
  owner := deployer
  isProvider := updMap (fun _ => false) deployer true
  paused := false
  cooldownSeconds := 60
  lastSubmissionTime := fun _ => 0
  lastDecryptionRequestTime := fun _ => 0
  tips := []
  batches := [⟨0, false, 0, 0⟩]
  batchTipCount := fun _ => 0
  batchTotalEncryptedAmount := fun _ => 0
  decryptionContexts := fun _ => dctxDefault
  fhe := f0
  nextRequestId := 0
  selfAddr := selfAddr
  events := []

/-- function transferOwnership -/
def transferOwnership (s : State) (sender newOwner : Address) : Except Err State :=
  if sender ≠ s.owner then .error .NotOwner
  else .ok { s with owner := newOwner,
                    events := s.events ++ [.OwnershipTransferred s.owner newOwner] }

/-- function addProvider -/
def addProvider (s : State) (sender provider : Address) : Except Err State :=
  if sender ≠ s.owner then .error .NotOwner
  else if s.isProvider provider = true then .ok s
  else .ok { s with isProvider := updMap s.isProvider provider true,
                    events := s.events ++ [.ProviderAdded provider] }

/-- function removeProvider -/
def removeProvider (s : State) (sender provider : Address) : Except Err State :=
  if sender ≠ s.owner then .error .NotOwner
  else if s.isProvider provider = false then .ok s
  else .ok { s with isProvider := updMap s.isProvider provider false,
                    events := s.events ++ [.ProviderRemoved provider] }

/-- function pause -/
def pause (s : State) (sender : Address) : Except Err State :=
  if sender ≠ s.owner then .error .NotOwner
  else if s.paused = true then .error .PausedState
  else .ok { s with paused := true, events := s.events ++ [.Paused sender] }

/-- function unpause -/
def unpause (s : State) (sender : Address) : Except Err State :=
  if sender ≠ s.owner then .error .NotOwner
  else .ok { s with paused := false, events := s.events ++ [.Unpaused sender] }

/-- function setCooldownSeconds -/
def setCooldownSeconds (s : State) (sender : Address) (newCooldownSeconds : Nat) :
    Except Err State :=
  if sender ≠ s.owner then .error .NotOwner
  else .ok { s with cooldownSeconds := newCooldownSeconds,
                    events := s.events ++
                      [.CooldownSecondsSet s.cooldownSeconds newCooldownSeconds] }

/-- function openBatch -/
def openBatch (s : State) (sender now : Nat) : Except Err State :=
  if s.isProvider sender = false then .error .NotProvider
  else if s.paused = true then .error .PausedState
  else if (lastBatch s).isOpen = true then .error .BatchOpen
  else .ok { s with batches := s.batches ++ [⟨s.batches.length, true, now, 0⟩],
                    events := s.events ++ [.BatchOpened s.batches.length now] }

/-- function closeBatch -/
def closeBatch (s : State) (sender now : Nat) : Except Err State :=
  if s.isProvider sender = false then .error .NotProvider
  else if s.paused = true then .error .PausedState
  else if (lastBatch s).isOpen = false then .error .BatchNotOpen
  else .ok { s with
    batches := s.batches.set (s.batches.length - 1)
      ⟨(lastBatch s).id, false, (lastBatch s).startTime, now⟩,
    events := s.events ++
      [.BatchClosed (lastBatch s).id now (s.batchTipCount (lastBatch s).id)] }

/-- function submitTip -/
def submitTip (s : State) (sender now encryptedAmount encryptedMessagePart1
    encryptedMessagePart2 : Nat) : Except Err State :=
  if s.paused = true then .error .PausedState
  else if now < s.lastSubmissionTime sender + s.cooldownSeconds then .error .CooldownActive
  else if (lastBatch s).isOpen = false then .error .BatchNotOpen
  else if isInitialized encryptedAmount = false then .error .NotInitialized
  else if isInitialized encryptedMessagePart1 = false then .error .NotInitialized
  else if isInitialized encryptedMessagePart2 = false then .error .NotInitialized
  else
    let cid := (lastBatch s).id
    let tipIndex := s.tips.length
    let tips2 := s.tips ++
      [⟨sender, encryptedAmount, encryptedMessagePart1, encryptedMessagePart2⟩]
    let count2 := updMap s.batchTipCount cid (s.batchTipCount cid + 1)
    if s.batchTotalEncryptedAmount cid = 0 then
      .ok { s with tips := tips2, batchTipCount := count2,
                   batchTotalEncryptedAmount :=
                     updMap s.batchTotalEncryptedAmount cid encryptedAmount,
                   lastSubmissionTime := updMap s.lastSubmissionTime sender now,
                   events := s.events ++ [.TipSubmitted sender cid tipIndex] }
    else
      let r := fheAdd s.fhe (s.batchTotalEncryptedAmount cid) encryptedAmount
      .ok { s with tips := tips2, batchTipCount := count2,
                   batchTotalEncryptedAmount :=
                     updMap s.batchTotalEncryptedAmount cid r.2,
                   fhe := r.1,
                   lastSubmissionTime := updMap s.lastSubmissionTime sender now,
                   events := s.events ++ [.TipSubmitted sender cid tipIndex] }

/-- function requestBatchTotalDecryption -/
def requestBatchTotalDecryption (s : State) (sender now batchId : Nat) :
    Except Err State :=
  if s.isProvider sender = false then .error .NotProvider
  else if s.paused = true then .error .PausedState
  else if now < s.lastDecryptionRequestTime sender + s.cooldownSeconds then
    .error .CooldownActive
  else if s.batches.length ≤ batchId ∨ batchId = 0 then .error .InvalidBatch
  else if (s.batches.getD batchId bdef).isOpen = true then .error .BatchOpen
  else if isInitialized (s.batchTotalEncryptedAmount batchId) = false then
    .error .NotInitialized
  else
    let stateHash := hashCiphertexts [s.batchTotalEncryptedAmount batchId] s.selfAddr
    .ok { s with
      decryptionContexts := updMap s.decryptionContexts s.nextRequestId
        ⟨batchId, stateHash, false⟩,
      nextRequestId := s.nextRequestId + 1,
      lastDecryptionRequestTime := updMap s.lastDecryptionRequestTime sender now,
      events := s.events ++ [.DecryptionRequested s.nextRequestId batchId stateHash] }

/-- function myCallback.  `verify` models the external predicate
`FHE.checkSignatures`; `cleartexts` is the abi-encoded uint32 payload. -/
def myCallback (s : State) (verify : Nat → Nat → List Nat → Bool)
    (requestId cleartexts : Nat) (pf : List Nat) : Except Err State :=
  if (s.decryptionContexts requestId).processed = true then .error .ReplayAttempt
  else if s.batches.length ≤ (s.decryptionContexts requestId).batchId then .error .Panic
  else if isInitialized
      (s.batchTotalEncryptedAmount (s.decryptionContexts requestId).batchId) = false then
    .error .NotInitialized
  else if hashCiphertexts
        [s.batchTotalEncryptedAmount (s.decryptionContexts requestId).batchId]
        s.selfAddr ≠ (s.decryptionContexts requestId).stateHash then
    .error .StateMismatch
  else if verify requestId cleartexts pf = false then .error .InvalidProof
  else
    .ok { s with
      decryptionContexts := updMap s.decryptionContexts requestId
        ⟨(s.decryptionContexts requestId).batchId,
         (s.decryptionContexts requestId).stateHash, true⟩,
      events := s.events ++
        [.DecryptionCompleted requestId (s.decryptionContexts requestId).batchId
          (cleartexts % two32)] }

/-- Transaction semantics: an error result is a revert, leaving the
pre-state untouched. -/
def applyTx (s : State) (r : Except Err State) : State :=
  match r with
  | .ok s' => s'
  | .error _ => s

/-- The amount handle of the tip at ledger index `i`. -/
def tipAmountAt (tips : List Tip) (i : Nat) : Nat := (tips.getD i tdef).encryptedAmount

/-- The amount handle recorded by a `TipSubmitted` event for batch `b`,
if the event is one. -/
def tipEventAmount (tips : List Tip) (b : Nat) : Event → Option Nat
  | .TipSubmitted _ b' i => if b' = b then some (tipAmountAt tips i) else none
  | _ => none

/-- The encrypted amount handles of the contributions whose batch
membership is `b`, in submission order, read off the event log and the
tip ledger. -/
def batchAmountHandles (es : List Event) (tips : List Tip) (b : Nat) : List Nat :=
  es.filterMap (tipEventAmount tips b)

/-- One transaction of the contract, from any sender at any time.  The
side conditions on `submitTip` state that the submitted handles were
produced by the encryption scheme, i.e. are already allocated in the FHE
environment (the spec: initialized handles were actually produced by the
encryption scheme, not forged). -/
inductive Step : State → State → Prop where
  | ownership {s s' : State} (sender newOwner : Address) :
      transferOwnership s sender newOwner = .ok s' → Step s s'
  | addP {s s' : State} (sender p : Address) :
      addProvider s sender p = .ok s' → Step s s'
  | removeP {s s' : State} (sender p : Address) :
      removeProvider s sender p = .ok s' → Step s s'
  | pauseC {s s' : State} (sender : Address) :
      pause s sender = .ok s' → Step s s'
  | unpauseC {s s' : State} (sender : Address) :
      unpause s sender = .ok s' → Step s s'
  | setCd {s s' : State} (sender v : Nat) :
      setCooldownSeconds s sender v = .ok s' → Step s s'
  | openB {s s' : State} (sender now : Nat) :
      openBatch s sender now = .ok s' → Step s s'
  | closeB {s s' : State} (sender now : Nat) :
      closeBatch s sender now = .ok s' → Step s s'
  | tip {s s' : State} (sender now a m1 m2 : Nat) :
      a < s.fhe.next → m1 < s.fhe.next → m2 < s.fhe.next →
      submitTip s sender now a m1 m2 = .ok s' → Step s s'
  | request {s s' : State} (sender now batchId : Nat) :
      requestBatchTotalDecryption s sender now batchId = .ok s' → Step s s'
  | callback {s s' : State} (verify : Nat → Nat → List Nat → Bool)
      (requestId cleartexts : Nat) (pf : List Nat) :
      myCallback s verify requestId cleartexts pf = .ok s' → Step s s'

/-- States reachable from a fresh deployment.  The initial FHE
environment has allocated handles below `f0.next`, with `f0.next`
positive so that the null handle 0 is never allocated. -/
inductive Reachable (deployer selfAddr : Address) (f0 : FheEnv) : State → Prop where
  | init : 0 < f0.next → Reachable deployer selfAddr f0 (initialState deployer selfAddr f0)
  | step {s s' : State} : Reachable deployer selfAddr f0 s → Step s s' →
      Reachable deployer selfAddr f0 s'

/-! ### The reachable-state invariant -/

/-- The global invariant of the contract, preserved by every transaction
from the deployment state.  It packages what the individual claims need:
the batch state machine shape, the non-clobbering discipline of FHE
handles, the count/total correspondence, the homomorphic-sum property of
each running total, and the decryption-context bookkeeping. -/
structure Inv (s : State) : Prop where
  batches_ne : 0 < s.batches.length
  batch_ids : ∀ i, i < s.batches.length → (s.batches.getD i bdef).id = i
  open_last : ∀ i, i < s.batches.length → (s.batches.getD i bdef).isOpen = true →
    i + 1 = s.batches.length
  batch0_closed : (s.batches.getD 0 bdef).isOpen = false
  next_pos : 0 < s.fhe.next
  total_lt : ∀ b, s.batchTotalEncryptedAmount b < s.fhe.next
  tips_lt : ∀ t ∈ s.tips, t.encryptedAmount < s.fhe.next
  count_total : ∀ b, (s.batchTipCount b = 0 ↔ s.batchTotalEncryptedAmount b = 0)
  count0 : s.batchTipCount 0 = 0
  count_len : ∀ b, s.batchTipCount b = (batchAmountHandles s.events s.tips b).length
  ev_idx : ∀ e ∈ s.events, ∀ tipper b i, e = Event.TipSubmitted tipper b i →
    i < s.tips.length
  total_sum : ∀ b, s.batchTipCount b ≠ 0 →
    decrypt32 s.fhe (s.batchTotalEncryptedAmount b)
      = ((batchAmountHandles s.events s.tips b).map (decrypt32 s.fhe)).sum % two32
  ctx_fresh : ∀ r, s.nextRequestId ≤ r → s.decryptionContexts r = dctxDefault
  ctx_ok : ∀ r, (s.decryptionContexts r).batchId < s.batches.length ∧
    ((s.decryptionContexts r).stateHash ≠ B32.zero →
      (s.decryptionContexts r).batchId ≠ 0 ∧
      s.batchTotalEncryptedAmount ((s.decryptionContexts r).batchId) ≠ 0)

/-- Any number of transactions in sequence. -/
def StepStar : State → State → Prop := Relation.ReflTransGen Step

/-! ### A concrete deployment and transaction history, used as witness data.
The initial FHE environment has four allocated handles: handles 1 and 2
encrypt 2147483648 = 2 ^ 31, handle 3 encrypts 5 and handle 4 encrypts 3. -/

/-- A proof verifier that accepts everything (worst case for the contract). -/
def vTrue : Nat → Nat → List Nat → Bool := fun _ _ _ => true

def fhe0 : FheEnv :=
  ⟨fun h => if h = 1 then 2147483648 else if h = 2 then 2147483648
            else if h = 3 then 5 else if h = 4 then 3 else 0, 5⟩

/-- Deployment by address 1, contract address 2. -/
def s0 : State := initialState 1 2 fhe0

/-- Batch 1 opened. -/
def s1 : State := applyTx s0 (openBatch s0 1 100)

/-- Tip of 5 (handle 3) submitted by address 10. -/
def s2 : State := applyTx s1 (submitTip s1 10 200 3 3 3)

/-- Tip of 3 (handle 4) submitted by address 11. -/
def s3 : State := applyTx s2 (submitTip s2 11 200 4 4 4)

/-- Batch 1 closed with two contributions totalling 8. -/
def s4 : State := applyTx s3 (closeBatch s3 1 300)

/-- Decryption of the batch-1 total requested: request id 0 issued. -/
def s5 : State := applyTx s4 (requestBatchTotalDecryption s4 1 400 1)

/-- Oracle callback for request 0 delivered with cleartext 8. -/
def s6 : State := applyTx s5 (myCallback s5 vTrue 0 8 [])

/-- Alternative history: tip of 2147483648 (handle 1) by address 10. -/
def u2 : State := applyTx s1 (submitTip s1 10 200 1 1 1)

/-- Second tip of 2147483648 (handle 2) by address 11. -/
def u3 : State := applyTx u2 (submitTip u2 11 200 2 2 2)

/-- Batch 1 closed; its two plaintext amounts sum to 2 ^ 32. -/
def u4 : State := applyTx u3 (closeBatch u3 1 300)

/-- Continuation of the main history: batch 2 opened after batch 1 closed. -/
def w5 : State := applyTx s4 (openBatch s4 1 500)

/-- Batch 2 closed with zero contributions. -/
def w6 : State := applyTx w5 (closeBatch w5 1 600)

/-- One more transaction after the fulfilled callback: ownership handed
to address 3. -/
def s7 : State := applyTx s6 (transferOwnership s6 1 3)

/-- A handcrafted state, not claimed reachable: batch 1 exists and is
closed with running total handle 7, while the pending context 0 stores a
fingerprint taken over handle 9 — the fingerprints disagree. -/
def cs3 : State where
  owner := 1
  isProvider := updMap (fun _ => false) 1 true
  paused := false
  cooldownSeconds := 60
  lastSubmissionTime := fun _ => 0
  lastDecryptionRequestTime := fun _ => 0
  tips := []
  batches := [⟨0, false, 0, 0⟩, ⟨1, false, 10, 20⟩]
  batchTipCount := updMap (fun _ => 0) 1 1
  batchTotalEncryptedAmount := updMap (fun _ => 0) 1 7
  decryptionContexts := updMap (fun _ => dctxDefault) 0 ⟨1, B32.keccak [9] 2, false⟩
  fhe := fhe0
  nextRequestId := 1
  selfAddr := 2
  events := []

/-! ### Small helper lemmas about mappings and lists -/

@[simp]
theorem updMap_same {α : Type} (f : Nat → α) (k : Nat) (v : α) : updMap f k v k = v := by
  simp [updMap]

theorem updMap_ne {α : Type} (f : Nat → α) (k : Nat) (v : α) {k' : Nat} (h : k' ≠ k) :
    updMap f k v k' = f k' := by
  simp [updMap, h]

theorem getD_concat_self {α : Type} : ∀ (l : List α) (x d : α),
    (l ++ [x]).getD l.length d = x
  | [], _, _ => rfl
  | _ :: l, x, d => getD_concat_self l x d

theorem mem_of_getD {α : Type} {l : List α} {n : Nat} (d : α) (h : n < l.length) :
    l.getD n d ∈ l := by
  rw [List.getD_eq_getElem l d h]
  exact List.getElem_mem h

theorem getD_set_self {α : Type} {l : List α} {n : Nat} (x d : α) (h : n < l.length) :
    (l.set n x).getD n d = x := by
  rw [List.getD_eq_getElem?_getD, List.getElem?_set_self h]
  rfl

theorem getD_set_ne {α : Type} (l : List α) {n m : Nat} (x d : α) (h : n ≠ m) :
    (l.set n x).getD m d = l.getD m d := by
  rw [List.getD_eq_getElem?_getD, List.getD_eq_getElem?_getD, List.getElem?_set_ne h]

theorem filterMap_singleton {α β : Type} (f : α → Option β) (e : α) :
    List.filterMap f [e] = (f e).toList := by
  cases h : f e <;> simp [List.filterMap_cons, h]

/-! ### Facts about the contribution-handle list of a batch -/

theorem bah_append_event (es : List Event) (tips : List Tip) (b : Nat) (e : Event) :
    batchAmountHandles (es ++ [e]) tips b
      = batchAmountHandles es tips b ++ (tipEventAmount tips b e).toList := by
  simp [batchAmountHandles, List.filterMap_append, filterMap_singleton]

theorem bah_tips_frame (es : List Event) (tips tips' : List Tip) (b : Nat)
    (h : ∀ tipper b' i, Event.TipSubmitted tipper b' i ∈ es →
      tipAmountAt tips' i = tipAmountAt tips i) :
    batchAmountHandles es tips' b = batchAmountHandles es tips b := by
  unfold batchAmountHandles
  refine List.filterMap_congr (fun e he => ?_)
  cases e with
  | TipSubmitted tipper b' i =>
      simp only [tipEventAmount]
      rw [h tipper b' i he]
  | _ => rfl

theorem mem_bah (es : List Event) (tips : List Tip) (b : Nat) {x : Nat}
    (hx : x ∈ batchAmountHandles es tips b) :
    ∃ tipper i, Event.TipSubmitted tipper b i ∈ es ∧ x = tipAmountAt tips i := by
  unfold batchAmountHandles at hx
  rcases List.mem_filterMap.mp hx with ⟨e, he, hfe⟩
  cases e with
  | TipSubmitted tipper b' i =>
      simp only [tipEventAmount] at hfe
      by_cases hb : b' = b
      · subst hb
        simp at hfe
        exact ⟨tipper, i, he, hfe.symm⟩
      · simp [hb] at hfe
  | _ => simp [tipEventAmount] at hfe

theorem inv_init (deployer selfAddr : Address) (f0 : FheEnv) (h0 : 0 < f0.next) :
    Inv (initialState deployer selfAddr f0) := by
  constructor <;>
    simp [initialState, bdef, dctxDefault, batchAmountHandles, decrypt32, h0]

theorem tipEventAmount_none {tips : List Tip} {b : Nat} {e : Event}
    (h : ∀ tipper b' i, e ≠ Event.TipSubmitted tipper b' i) :
    tipEventAmount tips b e = none := by
  cases e
  case TipSubmitted t b' i => exact absurd rfl (h t b' i)
  all_goals rfl

/-- Frame rule: a transaction that leaves the batch registry, the tip
ledger, the counts, the totals, the FHE environment and the decryption
contexts untouched, and at most appends one non-contribution event,
preserves the invariant. -/
theorem inv_frame {s s' : State} (hInv : Inv s)
    (hb : s'.batches = s.batches) (ht : s'.tips = s.tips)
    (hc : s'.batchTipCount = s.batchTipCount)
    (htot : s'.batchTotalEncryptedAmount = s.batchTotalEncryptedAmount)
    (hf : s'.fhe = s.fhe)
    (hctx : s'.decryptionContexts = s.decryptionContexts)
    (hreq : s'.nextRequestId = s.nextRequestId)
    (hev : s'.events = s.events ∨
      ∃ e, s'.events = s.events ++ [e] ∧
        ∀ tipper b i, e ≠ Event.TipSubmitted tipper b i) :
    Inv s' := by
  have hbah : ∀ b, batchAmountHandles s'.events s'.tips b
      = batchAmountHandles s.events s.tips b := by
    intro b
    rcases hev with hsame | ⟨e, happ, hne⟩
    · rw [hsame, ht]
    · rw [happ, ht, bah_append_event, tipEventAmount_none hne]
      simp
  refine ⟨?_, ?_, ?_, ?_, ?_, ?_, ?_, ?_, ?_, ?_, ?_, ?_, ?_, ?_⟩
  · rw [hb]; exact hInv.batches_ne
  · rw [hb]; exact hInv.batch_ids
  · rw [hb]; exact hInv.open_last
  · rw [hb]; exact hInv.batch0_closed
  · rw [hf]; exact hInv.next_pos
  · rw [htot, hf]; exact hInv.total_lt
  · rw [ht, hf]; exact hInv.tips_lt
  · rw [hc, htot]; exact hInv.count_total
  · rw [hc]; exact hInv.count0
  · intro b; rw [hc, hbah]; exact hInv.count_len b
  · intro e he tipper b i heq
    rcases hev with hsame | ⟨e', happ, hne⟩
    · rw [hsame] at he; rw [ht]; exact hInv.ev_idx e he tipper b i heq
    · rw [happ] at he
      rcases List.mem_append.mp he with h1 | h2
      · rw [ht]; exact hInv.ev_idx e h1 tipper b i heq
      · simp only [List.mem_singleton] at h2
        subst h2
        exact absurd heq (hne _ _ _)
  · intro b hbne
    rw [hc] at hbne
    rw [htot, hf, hbah]
    exact hInv.total_sum b hbne
  · intro r hr; rw [hreq] at hr; rw [hctx]; exact hInv.ctx_fresh r hr
  · intro r; rw [hctx, hb, htot]; exact hInv.ctx_ok r

theorem inv_transferOwnership {s s' : State} {sender newOwner : Address}
    (hInv : Inv s) (h : transferOwnership s sender newOwner = .ok s') : Inv s' := by
  rw [transferOwnership] at h
  split_ifs at h
  all_goals injection h with h
  all_goals subst h
  all_goals first
    | exact hInv
    | exact inv_frame hInv rfl rfl rfl rfl rfl rfl rfl (Or.inr ⟨_, rfl, fun tipper b i hne => Event.noConfusion hne⟩)

theorem inv_addProvider {s s' : State} {sender p : Address}
    (hInv : Inv s) (h : addProvider s sender p = .ok s') : Inv s' := by
  rw [addProvider] at h
  split_ifs at h
  all_goals injection h with h
  all_goals subst h
  all_goals first
    | exact hInv
    | exact inv_frame hInv rfl rfl rfl rfl rfl rfl rfl (Or.inr ⟨_, rfl, fun tipper b i hne => Event.noConfusion hne⟩)

theorem inv_removeProvider {s s' : State} {sender p : Address}
    (hInv : Inv s) (h : removeProvider s sender p = .ok s') : Inv s' := by
  rw [removeProvider] at h
  split_ifs at h
  all_goals injection h with h
  all_goals subst h
  all_goals first
    | exact hInv
    | exact inv_frame hInv rfl rfl rfl rfl rfl rfl rfl (Or.inr ⟨_, rfl, fun tipper b i hne => Event.noConfusion hne⟩)

theorem inv_pause {s s' : State} {sender : Address}
    (hInv : Inv s) (h : pause s sender = .ok s') : Inv s' := by
  rw [pause] at h
  split_ifs at h
  all_goals injection h with h
  all_goals subst h
  all_goals first
    | exact hInv
    | exact inv_frame hInv rfl rfl rfl rfl rfl rfl rfl (Or.inr ⟨_, rfl, fun tipper b i hne => Event.noConfusion hne⟩)

theorem inv_unpause {s s' : State} {sender : Address}
    (hInv : Inv s) (h : unpause s sender = .ok s') : Inv s' := by
  rw [unpause] at h
  split_ifs at h
  all_goals injection h with h
  all_goals subst h
  all_goals first
    | exact hInv
    | exact inv_frame hInv rfl rfl rfl rfl rfl rfl rfl (Or.inr ⟨_, rfl, fun tipper b i hne => Event.noConfusion hne⟩)

theorem inv_setCooldownSeconds {s s' : State} {sender v : Nat}
    (hInv : Inv s) (h : setCooldownSeconds s sender v = .ok s') : Inv s' := by
  rw [setCooldownSeconds] at h
  split_ifs at h
  all_goals injection h with h
  all_goals subst h
  all_goals first
    | exact hInv
    | exact inv_frame hInv rfl rfl rfl rfl rfl rfl rfl (Or.inr ⟨_, rfl, fun tipper b i hne => Event.noConfusion hne⟩)

theorem inv_openBatch {s s' : State} {sender now : Nat}
    (hInv : Inv s) (h : openBatch s sender now = .ok s') : Inv s' := by
  rw [openBatch] at h
  split_ifs at h with h1 h2 h3
  injection h with h
  subst h
  have hlen : 0 < s.batches.length := hInv.batches_ne
  have hbah : ∀ b, batchAmountHandles
      (s.events ++ [Event.BatchOpened s.batches.length now]) s.tips b
      = batchAmountHandles s.events s.tips b := by
    intro b
    rw [bah_append_event, tipEventAmount_none (fun tipper b i hne => Event.noConfusion hne)]
    simp
  refine ⟨?_, ?_, ?_, ?_, ?_, ?_, ?_, ?_, ?_, ?_, ?_, ?_, ?_, ?_⟩
  · simp
  · intro i hi
    simp only [List.length_append, List.length_singleton] at hi
    rcases Nat.lt_succ_iff_lt_or_eq.mp hi with hlt | heq
    · rw [List.getD_append _ _ _ _ hlt]
      exact hInv.batch_ids i hlt
    · subst heq
      rw [getD_concat_self]
  · intro i hi hopen
    simp only [List.length_append, List.length_singleton] at hi ⊢
    rcases Nat.lt_succ_iff_lt_or_eq.mp hi with hlt | heq
    · rw [List.getD_append _ _ _ _ hlt] at hopen
      have := hInv.open_last i hlt hopen
      have hieq : i = s.batches.length - 1 := by omega
      subst hieq
      exact absurd hopen (by simpa [lastBatch] using h3)
    · subst heq; rfl
  · rw [List.getD_append _ _ _ _ hlen]
    exact hInv.batch0_closed
  · exact hInv.next_pos
  · exact hInv.total_lt
  · exact hInv.tips_lt
  · exact hInv.count_total
  · exact hInv.count0
  · intro b; rw [hbah]; exact hInv.count_len b
  · intro e he tipper b i heq
    rcases List.mem_append.mp he with h1 | h2
    · exact hInv.ev_idx e h1 tipper b i heq
    · simp only [List.mem_singleton] at h2
      subst h2
      exact Event.noConfusion heq
  · intro b hbne; rw [hbah]; exact hInv.total_sum b hbne
  · exact hInv.ctx_fresh
  · intro r
    refine ⟨?_, (hInv.ctx_ok r).2⟩
    simp only [List.length_append, List.length_singleton]
    exact Nat.lt_succ_of_lt (hInv.ctx_ok r).1

theorem inv_closeBatch {s s' : State} {sender now : Nat}
    (hInv : Inv s) (h : closeBatch s sender now = .ok s') : Inv s' := by
  rw [closeBatch] at h
  split_ifs at h with h1 h2 h3
  injection h with h
  subst h
  have hlen : 0 < s.batches.length := hInv.batches_ne
  have hlast : s.batches.length - 1 < s.batches.length := Nat.sub_lt hlen Nat.one_pos
  have hbah : ∀ b, batchAmountHandles
      (s.events ++ [Event.BatchClosed (lastBatch s).id now
        (s.batchTipCount (lastBatch s).id)]) s.tips b
      = batchAmountHandles s.events s.tips b := by
    intro b
    rw [bah_append_event, tipEventAmount_none (fun tipper b i hne => Event.noConfusion hne)]
    simp
  refine ⟨?_, ?_, ?_, ?_, ?_, ?_, ?_, ?_, ?_, ?_, ?_, ?_, ?_, ?_⟩
  · simpa using hlen
  · intro i hi
    simp only [List.length_set] at hi
    by_cases hieq : s.batches.length - 1 = i
    · subst hieq
      rw [getD_set_self _ _ hlast]
      exact hInv.batch_ids _ hlast
    · rw [getD_set_ne _ _ _ hieq]
      exact hInv.batch_ids i hi
  · intro i hi hopen
    simp only [List.length_set] at hi ⊢
    by_cases hieq : s.batches.length - 1 = i
    · subst hieq
      rw [getD_set_self _ _ hlast] at hopen
      exact absurd hopen (by simp)
    · rw [getD_set_ne _ _ _ hieq] at hopen
      have := hInv.open_last i hi hopen
      omega
  · by_cases h0 : s.batches.length - 1 = 0
    · rw [h0, getD_set_self _ _ (h0 ▸ hlast)]
    · rw [getD_set_ne _ _ _ h0]
      exact hInv.batch0_closed
  · exact hInv.next_pos
  · exact hInv.total_lt
  · exact hInv.tips_lt
  · exact hInv.count_total
  · exact hInv.count0
  · intro b; rw [hbah]; exact hInv.count_len b
  · intro e he tipper b i heq
    rcases List.mem_append.mp he with h1 | h2
    · exact hInv.ev_idx e h1 tipper b i heq
    · simp only [List.mem_singleton] at h2
      subst h2
      exact Event.noConfusion heq
  · intro b hbne; rw [hbah]; exact hInv.total_sum b hbne
  · exact hInv.ctx_fresh
  · intro r
    refine ⟨?_, (hInv.ctx_ok r).2⟩
    simp only [List.length_set]
    exact (hInv.ctx_ok r).1

theorem inv_submitTip {s s' : State} {sender now a m1 m2 : Nat}
    (hInv : Inv s) (ha : a < s.fhe.next)
    (h : submitTip s sender now a m1 m2 = .ok s') : Inv s' := by
  have hlen : 0 < s.batches.length := hInv.batches_ne
  have hlast : s.batches.length - 1 < s.batches.length := Nat.sub_lt hlen Nat.one_pos
  have hcid : (lastBatch s).id = s.batches.length - 1 := hInv.batch_ids _ hlast
  simp only [submitTip] at h
  split_ifs at h with h1 h2 h3 h4 h5 h6 h7 <;>
  · injection h with h
    subst h
    have hopen : (lastBatch s).isOpen = true := by simpa using h3
    have ha0 : a ≠ 0 := by simpa [isInitialized] using h4
    have hnext0 : s.fhe.next ≠ 0 := Nat.pos_iff_ne_zero.mp hInv.next_pos
    have hcid0 : (lastBatch s).id ≠ 0 := by
      intro h0
      have hl0 : s.batches.length - 1 = 0 := by rw [h0] at hcid; exact hcid.symm
      have hcl : (lastBatch s).isOpen = false := by
        show (s.batches.getD (s.batches.length - 1) bdef).isOpen = false
        rw [hl0]
        exact hInv.batch0_closed
      rw [hcl] at hopen
      exact Bool.noConfusion hopen
    have hframe : ∀ tipper b' i, Event.TipSubmitted tipper b' i ∈ s.events →
        tipAmountAt (s.tips ++ [⟨sender, a, m1, m2⟩]) i = tipAmountAt s.tips i := by
      intro tipper b' i he
      have hi := hInv.ev_idx _ he tipper b' i rfl
      show (List.getD _ i tdef).encryptedAmount = (List.getD _ i tdef).encryptedAmount
      rw [List.getD_append _ _ _ _ hi]
    have hbah2 : ∀ b, batchAmountHandles
        (s.events ++ [Event.TipSubmitted sender (lastBatch s).id s.tips.length])
        (s.tips ++ [⟨sender, a, m1, m2⟩]) b
        = batchAmountHandles s.events s.tips b
          ++ (if (lastBatch s).id = b then [a] else []) := by
      intro b
      rw [bah_append_event, bah_tips_frame _ _ _ _ hframe]
      congr 1
      simp only [tipEventAmount]
      by_cases hb : (lastBatch s).id = b
      · simp [hb, tipAmountAt, getD_concat_self]
      · simp [hb]
    have hx_lt : ∀ b, ∀ x ∈ batchAmountHandles s.events s.tips b, x < s.fhe.next := by
      intro b x hx
      rcases mem_bah _ _ _ hx with ⟨tipper, i, he, hxeq⟩
      have hi := hInv.ev_idx _ he tipper b i rfl
      subst hxeq
      exact hInv.tips_lt _ (mem_of_getD tdef hi)
    refine ⟨hInv.batches_ne, hInv.batch_ids, hInv.open_last, hInv.batch0_closed,
      ?_, ?_, ?_, ?_, ?_, ?_, ?_, ?_, hInv.ctx_fresh, ?_⟩ <;> dsimp only
    -- next_pos
    case _ => first
      | exact hInv.next_pos
      | exact Nat.lt_succ_of_lt hInv.next_pos
    -- total_lt
    case _ =>
      intro b
      by_cases hb : b = (lastBatch s).id
      · subst hb
        rw [updMap_same]
        first
          | exact ha
          | (dsimp only [fheAdd]; omega)
      · rw [updMap_ne _ _ _ hb]
        first
          | exact hInv.total_lt b
          | (dsimp only [fheAdd]; exact Nat.lt_succ_of_lt (hInv.total_lt b))
    -- tips_lt
    case _ =>
      intro t ht
      rcases List.mem_append.mp ht with hold | hnew
      · first
          | exact hInv.tips_lt t hold
          | (dsimp only [fheAdd]; exact Nat.lt_succ_of_lt (hInv.tips_lt t hold))
      · simp only [List.mem_singleton] at hnew
        subst hnew
        first
          | exact ha
          | (dsimp only [fheAdd]; exact Nat.lt_succ_of_lt ha)
    -- count_total
    case _ =>
      intro b
      by_cases hb : b = (lastBatch s).id
      · subst hb
        rw [updMap_same, updMap_same]
        constructor
        · intro hc
          exact absurd hc (Nat.succ_ne_zero _)
        · intro hv
          first
            | exact absurd hv ha0
            | (dsimp only [fheAdd] at hv; exact absurd hv hnext0)
      · rw [updMap_ne _ _ _ hb, updMap_ne _ _ _ hb]
        exact hInv.count_total b
    -- count0
    case _ =>
      rw [updMap_ne _ _ _ (fun hh => hcid0 hh.symm)]
      exact hInv.count0
    -- count_len
    case _ =>
      intro b
      rw [hbah2 b]
      by_cases hb : (lastBatch s).id = b
      · subst hb
        rw [updMap_same]
        simp [hInv.count_len (lastBatch s).id]
      · rw [updMap_ne _ _ _ (fun hh => hb hh.symm)]
        simp [hb, hInv.count_len b]
    -- ev_idx
    case _ =>
      intro e he tipper b i heq
      simp only [List.length_append, List.length_singleton]
      rcases List.mem_append.mp he with hold | hnew
      · exact Nat.lt_succ_of_lt (hInv.ev_idx e hold tipper b i heq)
      · simp only [List.mem_singleton] at hnew
        subst hnew
        injection heq with e1 e2 e3
        omega
    -- total_sum
    case _ =>
      intro b hbne
      rw [hbah2 b]
      by_cases hb : b = (lastBatch s).id
      case neg =>
        have hb' : ¬ (lastBatch s).id = b := fun hh => hb hh.symm
        rw [updMap_ne _ _ _ hb] at hbne ⊢
        simp only [hb', if_false, List.append_nil]
        first
          | exact hInv.total_sum b hbne
          | (have hT : decrypt32
                  (fheAdd s.fhe (s.batchTotalEncryptedAmount (lastBatch s).id) a).1
                  (s.batchTotalEncryptedAmount b)
                = decrypt32 s.fhe (s.batchTotalEncryptedAmount b) := by
               dsimp only [decrypt32, fheAdd]
               rw [updMap_ne _ _ _ (Nat.ne_of_lt (hInv.total_lt b))]
             have hcongr : List.map
                  (decrypt32 (fheAdd s.fhe
                    (s.batchTotalEncryptedAmount (lastBatch s).id) a).1)
                  (batchAmountHandles s.events s.tips b)
                = List.map (decrypt32 s.fhe) (batchAmountHandles s.events s.tips b) :=
               List.map_congr_left (fun x hx => by
                 dsimp only [decrypt32, fheAdd]
                 rw [updMap_ne _ _ _ (Nat.ne_of_lt (hx_lt b x hx))])
             rw [hT, hcongr]
             exact hInv.total_sum b hbne)
      case pos =>
        subst hb
        rw [updMap_same, if_pos rfl]
        first
          | -- seed branch: this is the first contribution of the batch
            (have hc0 : s.batchTipCount (lastBatch s).id = 0 :=
               (hInv.count_total _).mpr h7
             have hnil : batchAmountHandles s.events s.tips (lastBatch s).id = [] := by
               have hcl := hInv.count_len (lastBatch s).id
               rw [hc0] at hcl
               exact List.length_eq_zero.mp hcl.symm
             rw [hnil]
             simp only [List.nil_append, List.map_cons, List.map_nil, List.sum_cons,
               List.sum_nil, decrypt32, two32]
             omega)
          | -- merge branch: fold the new amount into the running total
            (have hcne : s.batchTipCount (lastBatch s).id ≠ 0 :=
               fun hc => h7 ((hInv.count_total _).mp hc)
             have ih := hInv.total_sum _ hcne
             have hLHS : decrypt32
                  (fheAdd s.fhe (s.batchTotalEncryptedAmount (lastBatch s).id) a).1
                  (fheAdd s.fhe (s.batchTotalEncryptedAmount (lastBatch s).id) a).2
                = (s.fhe.pt (s.batchTotalEncryptedAmount (lastBatch s).id)
                    + s.fhe.pt a) % two32 % two32 := by
               dsimp only [decrypt32, fheAdd]
               rw [updMap_same]
             have hA : decrypt32
                  (fheAdd s.fhe (s.batchTotalEncryptedAmount (lastBatch s).id) a).1 a
                = s.fhe.pt a % two32 := by
               dsimp only [decrypt32, fheAdd]
               rw [updMap_ne _ _ _ (Nat.ne_of_lt ha)]
             have hcongr : List.map
                  (decrypt32 (fheAdd s.fhe
                    (s.batchTotalEncryptedAmount (lastBatch s).id) a).1)
                  (batchAmountHandles s.events s.tips (lastBatch s).id)
                = List.map (decrypt32 s.fhe)
                    (batchAmountHandles s.events s.tips (lastBatch s).id) :=
               List.map_congr_left (fun x hx => by
                 dsimp only [decrypt32, fheAdd]
                 rw [updMap_ne _ _ _ (Nat.ne_of_lt (hx_lt _ x hx))])
             rw [hLHS, List.map_append, hcongr, List.sum_append,
               List.map_cons, List.map_nil, List.sum_cons, List.sum_nil, hA]
             simp only [decrypt32] at ih
             simp only [two32] at ih ⊢
             omega)
    -- ctx_ok
    case _ =>
      intro r
      refine ⟨(hInv.ctx_ok r).1, fun hz => ⟨((hInv.ctx_ok r).2 hz).1, ?_⟩⟩
      have hold := ((hInv.ctx_ok r).2 hz).2
      by_cases hb : (s.decryptionContexts r).batchId = (lastBatch s).id
      · rw [hb, updMap_same]
        intro hv
        first
          | exact ha0 hv
          | (dsimp only [fheAdd] at hv; exact hnext0 hv)
      · rw [updMap_ne _ _ _ hb]
        exact hold

theorem inv_requestDecryption {s s' : State} {sender now batchId : Nat}
    (hInv : Inv s) (h : requestBatchTotalDecryption s sender now batchId = .ok s') :
    Inv s' := by
  simp only [requestBatchTotalDecryption] at h
  split_ifs at h with h1 h2 h3 h4 h5 h6
  injection h with h
  subst h
  have hbid : batchId < s.batches.length ∧ batchId ≠ 0 := by
    push_neg at h4
    omega
  have htot0 : s.batchTotalEncryptedAmount batchId ≠ 0 := by
    simpa [isInitialized] using h6
  have hbah : ∀ b, batchAmountHandles
      (s.events ++ [Event.DecryptionRequested s.nextRequestId batchId
        (hashCiphertexts [s.batchTotalEncryptedAmount batchId] s.selfAddr)]) s.tips b
      = batchAmountHandles s.events s.tips b := by
    intro b
    rw [bah_append_event, tipEventAmount_none (fun tipper b i hne => Event.noConfusion hne)]
    simp
  refine ⟨hInv.batches_ne, hInv.batch_ids, hInv.open_last, hInv.batch0_closed,
    hInv.next_pos, hInv.total_lt, hInv.tips_lt, hInv.count_total, hInv.count0,
    ?_, ?_, ?_, ?_, ?_⟩ <;> dsimp only
  -- count_len
  case _ =>
    intro b
    rw [hbah]
    exact hInv.count_len b
  -- ev_idx
  case _ =>
    intro e he tipper b i heq
    rcases List.mem_append.mp he with hold | hnew
    · exact hInv.ev_idx e hold tipper b i heq
    · simp only [List.mem_singleton] at hnew
      subst hnew
      exact Event.noConfusion heq
  -- total_sum
  case _ =>
    intro b hbne
    rw [hbah]
    exact hInv.total_sum b hbne
  -- ctx_fresh
  case _ =>
    intro r hr
    rw [updMap_ne _ _ _ (by omega)]
    exact hInv.ctx_fresh r (by omega)
  -- ctx_ok
  case _ =>
    intro r
    by_cases hr : r = s.nextRequestId
    · subst hr
      rw [updMap_same]
      exact ⟨hbid.1, fun _ => ⟨hbid.2, htot0⟩⟩
    · rw [updMap_ne _ _ _ hr]
      exact hInv.ctx_ok r

theorem inv_myCallback {s s' : State} {verify : Nat → Nat → List Nat → Bool}
    {requestId cleartexts : Nat} {pf : List Nat}
    (hInv : Inv s) (h : myCallback s verify requestId cleartexts pf = .ok s') :
    Inv s' := by
  simp only [myCallback] at h
  split_ifs at h with h1 h2 h3 h4 h5
  injection h with h
  subst h
  have hhash : hashCiphertexts
      [s.batchTotalEncryptedAmount (s.decryptionContexts requestId).batchId] s.selfAddr
      = (s.decryptionContexts requestId).stateHash := by
    by_contra hc
    exact h4 hc
  have hreqlt : requestId < s.nextRequestId := by
    by_contra hge
    have hdef := hInv.ctx_fresh requestId (by omega)
    rw [hdef] at hhash
    exact B32.noConfusion hhash
  have hbah : ∀ b, batchAmountHandles
      (s.events ++ [Event.DecryptionCompleted requestId
        (s.decryptionContexts requestId).batchId (cleartexts % two32)]) s.tips b
      = batchAmountHandles s.events s.tips b := by
    intro b
    rw [bah_append_event, tipEventAmount_none (fun tipper b i hne => Event.noConfusion hne)]
    simp
  refine ⟨hInv.batches_ne, hInv.batch_ids, hInv.open_last, hInv.batch0_closed,
    hInv.next_pos, hInv.total_lt, hInv.tips_lt, hInv.count_total, hInv.count0,
    ?_, ?_, ?_, ?_, ?_⟩ <;> dsimp only
  -- count_len
  case _ =>
    intro b
    rw [hbah]
    exact hInv.count_len b
  -- ev_idx
  case _ =>
    intro e he tipper b i heq
    rcases List.mem_append.mp he with hold | hnew
    · exact hInv.ev_idx e hold tipper b i heq
    · simp only [List.mem_singleton] at hnew
      subst hnew
      exact Event.noConfusion heq
  -- total_sum
  case _ =>
    intro b hbne
    rw [hbah]
    exact hInv.total_sum b hbne
  -- ctx_fresh
  case _ =>
    intro r hr
    rw [updMap_ne _ _ _ (by omega)]
    exact hInv.ctx_fresh r hr
  -- ctx_ok
  case _ =>
    intro r
    by_cases hr : r = requestId
    · subst hr
      rw [updMap_same]
      exact hInv.ctx_ok r
    · rw [updMap_ne _ _ _ hr]
      exact hInv.ctx_ok r

theorem inv_step {s s' : State} (hInv : Inv s) (h : Step s s') : Inv s' := by
  cases h with
  | ownership sender newOwner h => exact inv_transferOwnership hInv h
  | addP sender p h => exact inv_addProvider hInv h
  | removeP sender p h => exact inv_removeProvider hInv h
  | pauseC sender h => exact inv_pause hInv h
  | unpauseC sender h => exact inv_unpause hInv h
  | setCd sender v h => exact inv_setCooldownSeconds hInv h
  | openB sender now h => exact inv_openBatch hInv h
  | closeB sender now h => exact inv_closeBatch hInv h
  | tip sender now a m1 m2 ha hm1 hm2 h => exact inv_submitTip hInv ha h
  | request sender now batchId h => exact inv_requestDecryption hInv h
  | callback verify requestId cleartexts pf h => exact inv_myCallback hInv h

/-- Every reachable state satisfies the invariant. -/
theorem inv_reachable {deployer selfAddr : Address} {f0 : FheEnv} {s : State}
    (h : Reachable deployer selfAddr f0 s) : Inv s := by
  induction h with
  | init h0 => exact inv_init _ _ _ h0
  | step _ hstep ih => exact inv_step ih hstep

/-- Once a decryption context is marked processed, no transaction ever
resets it. -/
theorem ctx_processed_mono {s s' : State} (hInv : Inv s) (hstep : Step s s') (r : Nat)
    (hp : (s.decryptionContexts r).processed = true) :
    (s'.decryptionContexts r).processed = true := by
  cases hstep with
  | ownership sender newOwner h =>
      simp only [transferOwnership] at h
      split_ifs at h
      all_goals injection h with h
      all_goals subst h
      all_goals exact hp
  | addP sender p h =>
      simp only [addProvider] at h
      split_ifs at h
      all_goals injection h with h
      all_goals subst h
      all_goals exact hp
  | removeP sender p h =>
      simp only [removeProvider] at h
      split_ifs at h
      all_goals injection h with h
      all_goals subst h
      all_goals exact hp
  | pauseC sender h =>
      simp only [pause] at h
      split_ifs at h
      all_goals injection h with h
      all_goals subst h
      all_goals exact hp
  | unpauseC sender h =>
      simp only [unpause] at h
      split_ifs at h
      all_goals injection h with h
      all_goals subst h
      all_goals exact hp
  | setCd sender v h =>
      simp only [setCooldownSeconds] at h
      split_ifs at h
      all_goals injection h with h
      all_goals subst h
      all_goals exact hp
  | openB sender now h =>
      simp only [openBatch] at h
      split_ifs at h
      all_goals injection h with h
      all_goals subst h
      all_goals exact hp
  | closeB sender now h =>
      simp only [closeBatch] at h
      split_ifs at h
      all_goals injection h with h
      all_goals subst h
      all_goals exact hp
  | tip sender now a m1 m2 ha hm1 hm2 h =>
      simp only [submitTip] at h
      split_ifs at h
      all_goals injection h with h
      all_goals subst h
      all_goals exact hp
  | request sender now batchId h =>
      simp only [requestBatchTotalDecryption] at h
      split_ifs at h
      injection h with h
      subst h
      dsimp only
      by_cases hr : r = s.nextRequestId
      · subst hr
        rw [hInv.ctx_fresh _ (Nat.le_refl _)] at hp
        simp [dctxDefault] at hp
      · rw [updMap_ne _ _ _ hr]
        exact hp
  | callback verify requestId cleartexts pf h =>
      simp only [myCallback] at h
      split_ifs at h
      injection h with h
      subst h
      dsimp only
      by_cases hr : r = requestId
      · subst hr
        rw [updMap_same]
      · rw [updMap_ne _ _ _ hr]
        exact hp

theorem reachable_star {deployer selfAddr : Address} {f0 : FheEnv} {s s' : State}
    (hre : Reachable deployer selfAddr f0 s) (hs : StepStar s s') :
    Reachable deployer selfAddr f0 s' := by
  induction hs with
  | refl => exact hre
  | tail _ hstep ih => exact Reachable.step ih hstep

theorem ctx_processed_mono_star {deployer selfAddr : Address} {f0 : FheEnv}
    {s s' : State} (hre : Reachable deployer selfAddr f0 s) (hs : StepStar s s')
    (r : Nat) (hp : (s.decryptionContexts r).processed = true) :
    (s'.decryptionContexts r).processed = true := by
  induction hs with
  | refl => exact hp
  | tail hs' hstep ih =>
      exact ctx_processed_mono (inv_reachable (reachable_star hre hs')) hstep r ih

/-! ### Reachability of the concrete scenario states -/

theorem reach_s0 : Reachable 1 2 fhe0 s0 := Reachable.init (by decide)

theorem reach_s1 : Reachable 1 2 fhe0 s1 :=
  Reachable.step reach_s0 (Step.openB 1 100 rfl)

theorem reach_s2 : Reachable 1 2 fhe0 s2 :=
  Reachable.step reach_s1 (Step.tip 10 200 3 3 3 (by decide) (by decide) (by decide) rfl)

theorem reach_s3 : Reachable 1 2 fhe0 s3 :=
  Reachable.step reach_s2 (Step.tip 11 200 4 4 4 (by decide) (by decide) (by decide) rfl)

theorem reach_s4 : Reachable 1 2 fhe0 s4 :=
  Reachable.step reach_s3 (Step.closeB 1 300 rfl)

theorem reach_s5 : Reachable 1 2 fhe0 s5 :=
  Reachable.step reach_s4 (Step.request 1 400 1 rfl)

theorem reach_s6 : Reachable 1 2 fhe0 s6 :=
  Reachable.step reach_s5 (Step.callback vTrue 0 8 [] rfl)

theorem reach_u2 : Reachable 1 2 fhe0 u2 :=
  Reachable.step reach_s1 (Step.tip 10 200 1 1 1 (by decide) (by decide) (by decide) rfl)

theorem reach_u3 : Reachable 1 2 fhe0 u3 :=
  Reachable.step reach_u2 (Step.tip 11 200 2 2 2 (by decide) (by decide) (by decide) rfl)

theorem reach_u4 : Reachable 1 2 fhe0 u4 :=
  Reachable.step reach_u3 (Step.closeB 1 300 rfl)

theorem reach_w5 : Reachable 1 2 fhe0 w5 :=
  Reachable.step reach_s4 (Step.openB 1 500 rfl)

theorem reach_w6 : Reachable 1 2 fhe0 w6 :=
  Reachable.step reach_w5 (Step.closeB 1 600 rfl)

/-! ### The claims -/

/-- Claim C1, counterexample to the claim as stated.  In the reachable
state `u4`, batch 1 is closed and holds exactly two contributions whose
plaintext amounts are 2147483648 = 2 ^ 31 each, yet decrypting its
running total yields 0, not the exact sum 2 ^ 31 + 2 ^ 31 = 2 ^ 32:
euint32 homomorphic addition wraps modulo 2 ^ 32. -/
theorem c1_counterexample :
    Reachable 1 2 fhe0 u4 ∧
    (lastBatch u4).isOpen = false ∧
    u4.batchTipCount 1 = 2 ∧
    (batchAmountHandles u4.events u4.tips 1).map (decrypt32 u4.fhe)
      = [2147483648, 2147483648] ∧
    decrypt32 u4.fhe (u4.batchTotalEncryptedAmount 1) = 0 ∧
    2147483648 + 2147483648 ≠ 0 :=
  ⟨reach_u4, rfl, rfl, rfl, rfl, by decide⟩

/-- Claim C1 (amended): in every reachable state, for every batch with at
least one contribution — in particular every closed batch — decrypting
`batchTotalEncryptedAmount` yields the sum of the plaintext amounts of
the contributions submitted to that batch reduced modulo 2 ^ 32 (exact
whenever the sum fits in 32 bits), regardless of submission order, the
first contribution seeding the total and each later one being folded in
by homomorphic addition. -/
theorem c1_total_is_homomorphic_sum (deployer selfAddr : Address) (f0 : FheEnv)
    (s : State) (b : Nat) (hre : Reachable deployer selfAddr f0 s)
    (hb : s.batchTipCount b ≠ 0) :
    decrypt32 s.fhe (s.batchTotalEncryptedAmount b)
      = ((batchAmountHandles s.events s.tips b).map (decrypt32 s.fhe)).sum % two32 :=
  (inv_reachable hre).total_sum b hb

/-- Witness for the amended C1 at the concrete reachable state `s4`:
batch 1 received amounts 5 and 3 and its total decrypts to 8. -/
theorem c1_total_is_homomorphic_sum_witness :
    s4.batchTipCount 1 ≠ 0 ∧
    decrypt32 s4.fhe (s4.batchTotalEncryptedAmount 1)
      = ((batchAmountHandles s4.events s4.tips 1).map (decrypt32 s4.fhe)).sum % two32 :=
  ⟨by decide, c1_total_is_homomorphic_sum 1 2 fhe0 s4 1 reach_s4 (by decide)⟩

/-- Claim C2: once a decryption context is processed, any further
callback for that request id fails with `ReplayAttempt`, whatever the
cleartext and proof; and no sequence of further transactions ever resets
the processed flag, so a context becomes fulfilled at most once. -/
theorem c2_replay_guard (deployer selfAddr : Address) (f0 : FheEnv) (s s' : State)
    (verify : Nat → Nat → List Nat → Bool) (r c : Nat) (p : List Nat)
    (hre : Reachable deployer selfAddr f0 s)
    (hp : (s.decryptionContexts r).processed = true) :
    myCallback s verify r c p = .error .ReplayAttempt ∧
    (StepStar s s' → (s'.decryptionContexts r).processed = true) := by
  constructor
  · rw [myCallback, if_pos hp]
  · intro hs
    exact ctx_processed_mono_star hre hs r hp

/-- Witness for C2: in the reachable state `s6` request 0 is processed, a
replayed callback with different payload fails `ReplayAttempt`, and after
one more transaction (state `s7`) the context is still processed. -/
theorem c2_replay_guard_witness :
    (s6.decryptionContexts 0).processed = true ∧
    myCallback s6 vTrue 0 99 [7] = .error .ReplayAttempt ∧
    (s7.decryptionContexts 0).processed = true :=
  ⟨rfl,
   (c2_replay_guard 1 2 fhe0 s6 s7 vTrue 0 99 [7] reach_s6 rfl).1,
   (c2_replay_guard 1 2 fhe0 s6 s7 vTrue 0 99 [7] reach_s6 rfl).2
     (Relation.ReflTransGen.single (Step.ownership 1 3 rfl))⟩

/-- Claim C3: for a pending (unprocessed) decryption context whose stored
fingerprint differs from the one recomputed over the current serialized
running total of its batch (hashed with the contract identity), the
callback fails with `StateMismatch` — for every proof verifier, cleartext
and proof, i.e. before the proof check and before any decoding.  Stated
over an arbitrary state: the check is a safety net independent of the
batch state machine. -/
theorem c3_fingerprint_mismatch (s : State) (verify : Nat → Nat → List Nat → Bool)
    (r c : Nat) (p : List Nat)
    (hpend : (s.decryptionContexts r).processed = false)
    (hbound : (s.decryptionContexts r).batchId < s.batches.length)
    (hinit : s.batchTotalEncryptedAmount (s.decryptionContexts r).batchId ≠ 0)
    (hmis : hashCiphertexts
        [s.batchTotalEncryptedAmount (s.decryptionContexts r).batchId] s.selfAddr
      ≠ (s.decryptionContexts r).stateHash) :
    myCallback s verify r c p = .error .StateMismatch := by
  rw [myCallback, if_neg (by simp [hpend]), if_neg (by omega),
    if_neg (by simp [isInitialized, hinit]), if_pos hmis]

/-- Witness for C3 at the concrete state `cs3`, whose pending context
stores a fingerprint over handle 9 while the current total is handle 7;
the verifier accepts everything and still the callback fails
`StateMismatch`. -/
theorem c3_fingerprint_mismatch_witness :
    (cs3.decryptionContexts 0).processed = false ∧
    hashCiphertexts
        [cs3.batchTotalEncryptedAmount (cs3.decryptionContexts 0).batchId] cs3.selfAddr
      ≠ (cs3.decryptionContexts 0).stateHash ∧
    myCallback cs3 vTrue 0 8 [] = .error .StateMismatch :=
  ⟨rfl, by decide,
   c3_fingerprint_mismatch cs3 vTrue 0 8 [] rfl (by decide) (by decide) (by decide)⟩

/-- Claim C4: in every reachable state at most one batch is open and when
one is, it is the batch with the highest id (ids coincide with positions,
the last one); with an authorized provider and the system unpaused,
`openBatch` fails with the batch-already-open error (`BatchOpen` in the
source) while a batch is open, and `closeBatch` fails `BatchNotOpen`
while none is. -/
theorem c4_single_open_batch (deployer selfAddr : Address) (f0 : FheEnv)
    (s : State) (sender now : Nat) (hre : Reachable deployer selfAddr f0 s)
    (hp : s.isProvider sender = true) (hup : s.paused = false) :
    (∀ i, i < s.batches.length → (s.batches.getD i bdef).isOpen = true →
      i + 1 = s.batches.length ∧ (s.batches.getD i bdef).id = s.batches.length - 1) ∧
    ((lastBatch s).isOpen = true → openBatch s sender now = .error .BatchOpen) ∧
    ((lastBatch s).isOpen = false → closeBatch s sender now = .error .BatchNotOpen) := by
  have hInv := inv_reachable hre
  refine ⟨?_, ?_, ?_⟩
  · intro i hi hopen
    refine ⟨hInv.open_last i hi hopen, ?_⟩
    rw [hInv.batch_ids i hi]
    have := hInv.open_last i hi hopen
    omega
  · intro hopen
    rw [openBatch, if_neg (by simp [hp]), if_neg (by simp [hup]), if_pos hopen]
  · intro hclosed
    rw [closeBatch, if_neg (by simp [hp]), if_neg (by simp [hup]), if_pos hclosed]

/-- Witness for C4: with batch 1 open (state `s1`) `openBatch` fails, and
in the deployment state (only the closed sentinel) `closeBatch` fails. -/
theorem c4_single_open_batch_witness :
    (lastBatch s1).isOpen = true ∧
    openBatch s1 1 500 = .error .BatchOpen ∧
    (lastBatch s0).isOpen = false ∧
    closeBatch s0 1 500 = .error .BatchNotOpen :=
  ⟨rfl,
   (c4_single_open_batch 1 2 fhe0 s1 1 500 reach_s1 rfl rfl).2.1 rfl,
   rfl,
   (c4_single_open_batch 1 2 fhe0 s0 1 500 reach_s0 rfl rfl).2.2 rfl⟩

/-- Claim C5: with the system unpaused and the cooldown elapsed,
`submitTip` fails `BatchNotOpen` whenever the latest batch is closed
(including the deployment state, where only sentinel batch 0 exists), and
fails `NotInitialized` when any of the three supplied handles is the
uninitialized null handle; every failing call reverts, leaving the state
— ledger, counts, totals, timers — exactly as before. -/
theorem c5_submitTip_guards (s : State) (sender now a m1 m2 : Nat)
    (hup : s.paused = false)
    (hcd : ¬ now < s.lastSubmissionTime sender + s.cooldownSeconds) :
    ((lastBatch s).isOpen = false →
      submitTip s sender now a m1 m2 = .error .BatchNotOpen) ∧
    ((lastBatch s).isOpen = true → a = 0 ∨ m1 = 0 ∨ m2 = 0 →
      submitTip s sender now a m1 m2 = .error .NotInitialized) ∧
    (∀ e, submitTip s sender now a m1 m2 = .error e →
      applyTx s (submitTip s sender now a m1 m2) = s) := by
  refine ⟨?_, ?_, ?_⟩
  · intro hclosed
    rw [submitTip, if_neg (by simp [hup]), if_neg hcd, if_pos hclosed]
  · intro hopen hzero
    rw [submitTip, if_neg (by simp [hup]), if_neg hcd, if_neg (by simp [hopen])]
    by_cases ha : a = 0
    · rw [if_pos (by simp [isInitialized, ha])]
    · rw [if_neg (by simp [isInitialized, ha])]
      by_cases hm1 : m1 = 0
      · rw [if_pos (by simp [isInitialized, hm1])]
      · rw [if_neg (by simp [isInitialized, hm1])]
        have hm2 : m2 = 0 := by tauto
        rw [if_pos (by simp [isInitialized, hm2])]
  · intro e he
    rw [he]
    rfl

/-- Witness for C5: a submission to the deployment state fails
`BatchNotOpen`; a submission with null amount handle to the open batch 1
fails `NotInitialized` and leaves the state unchanged. -/
theorem c5_submitTip_guards_witness :
    (lastBatch s0).isOpen = false ∧
    submitTip s0 10 100 3 3 3 = .error .BatchNotOpen ∧
    (lastBatch s1).isOpen = true ∧
    submitTip s1 10 100 0 3 3 = .error .NotInitialized ∧
    applyTx s1 (submitTip s1 10 100 0 3 3) = s1 :=
  ⟨rfl,
   (c5_submitTip_guards s0 10 100 3 3 3 rfl (by decide)).1 rfl,
   rfl,
   (c5_submitTip_guards s1 10 100 0 3 3 rfl (by decide)).2.1 rfl (Or.inl rfl),
   (c5_submitTip_guards s1 10 100 0 3 3 rfl (by decide)).2.2 .NotInitialized
     ((c5_submitTip_guards s1 10 100 0 3 3 rfl (by decide)).2.1 rfl (Or.inl rfl))⟩

/-- Claim C6: for an authorized, unpaused, cooldown-clear request,
`requestBatchTotalDecryption` fails `InvalidBatch` for the sentinel batch
0 and for ids beyond the registry, fails `BatchOpen` while the named
batch is open, fails `NotInitialized` when the batch has zero
contributions (its running total is the uninitialized null handle), and
on success stores `DecryptionContext` with the batch id, the fingerprint
of the serialized total bound to the contract address, and
processed = false, keyed by the freshly issued request id, and records
the caller decryption timer. -/
theorem c6_request_guards (deployer selfAddr : Address) (f0 : FheEnv)
    (s : State) (sender now batchId : Nat) (hre : Reachable deployer selfAddr f0 s)
    (hp : s.isProvider sender = true) (hup : s.paused = false)
    (hcd : ¬ now < s.lastDecryptionRequestTime sender + s.cooldownSeconds) :
    ((batchId = 0 ∨ s.batches.length ≤ batchId) →
      requestBatchTotalDecryption s sender now batchId = .error .InvalidBatch) ∧
    (batchId ≠ 0 → batchId < s.batches.length →
      (s.batches.getD batchId bdef).isOpen = true →
      requestBatchTotalDecryption s sender now batchId = .error .BatchOpen) ∧
    (batchId ≠ 0 → batchId < s.batches.length →
      (s.batches.getD batchId bdef).isOpen = false → s.batchTipCount batchId = 0 →
      requestBatchTotalDecryption s sender now batchId = .error .NotInitialized) ∧
    (batchId ≠ 0 → batchId < s.batches.length →
      (s.batches.getD batchId bdef).isOpen = false → s.batchTipCount batchId ≠ 0 →
      requestBatchTotalDecryption s sender now batchId = .ok { s with
        decryptionContexts := updMap s.decryptionContexts s.nextRequestId
          ⟨batchId, hashCiphertexts [s.batchTotalEncryptedAmount batchId] s.selfAddr,
           false⟩,
        nextRequestId := s.nextRequestId + 1,
        lastDecryptionRequestTime := updMap s.lastDecryptionRequestTime sender now,
        events := s.events ++ [.DecryptionRequested s.nextRequestId batchId
          (hashCiphertexts [s.batchTotalEncryptedAmount batchId] s.selfAddr)] }) := by
  have hInv := inv_reachable hre
  refine ⟨?_, ?_, ?_, ?_⟩
  · intro hbad
    rw [requestBatchTotalDecryption, if_neg (by simp [hp]), if_neg (by simp [hup]),
      if_neg hcd, if_pos (by tauto)]
  · intro h0 hlt hopen
    rw [requestBatchTotalDecryption, if_neg (by simp [hp]), if_neg (by simp [hup]),
      if_neg hcd, if_neg (by omega), if_pos hopen]
  · intro h0 hlt hclosed hcnt
    have htot : s.batchTotalEncryptedAmount batchId = 0 :=
      (hInv.count_total batchId).mp hcnt
    rw [requestBatchTotalDecryption, if_neg (by simp [hp]), if_neg (by simp [hup]),
      if_neg hcd, if_neg (by omega), if_neg (by rw [hclosed]; simp),
      if_pos (by simp [isInitialized, htot])]
  · intro h0 hlt hclosed hcnt
    have htot : s.batchTotalEncryptedAmount batchId ≠ 0 :=
      fun hz => hcnt ((hInv.count_total batchId).mpr hz)
    rw [requestBatchTotalDecryption, if_neg (by simp [hp]), if_neg (by simp [hup]),
      if_neg hcd, if_neg (by omega), if_neg (by rw [hclosed]; simp),
      if_neg (by simp [isInitialized, htot])]

/-- Witness for C6: in state `w6` batch 2 is closed with zero
contributions, so requesting its decryption fails `NotInitialized`, and
requesting batch 0 fails `InvalidBatch`. -/
theorem c6_request_guards_witness :
    w6.batchTipCount 2 = 0 ∧
    (w6.batches.getD 2 bdef).isOpen = false ∧
    requestBatchTotalDecryption w6 1 700 2 = .error .NotInitialized ∧
    requestBatchTotalDecryption w6 1 700 0 = .error .InvalidBatch :=
  ⟨rfl, rfl,
   (c6_request_guards 1 2 fhe0 w6 1 700 2 reach_w6 rfl rfl (by decide)).2.2.1
     (by decide) (by decide) rfl rfl,
   (c6_request_guards 1 2 fhe0 w6 1 700 0 reach_w6 rfl rfl (by decide)).1
     (Or.inl rfl)⟩

/-- Claim C7: with the earlier guards passed, a rate-limited call fails
`CooldownActive` exactly when `now` is strictly before the relevant timer
plus `cooldownSeconds` — the submission timer for `submitTip`, the
decryption timer for `requestBatchTotalDecryption` — and both gates read
the single global `cooldownSeconds`, which the owner resets for both at
once via `setCooldownSeconds`. -/
theorem c7_cooldown_gate (s : State) (sender now a m1 m2 batchId v : Nat) :
    (s.paused = false →
      (submitTip s sender now a m1 m2 = .error .CooldownActive ↔
        now < s.lastSubmissionTime sender + s.cooldownSeconds)) ∧
    (s.isProvider sender = true → s.paused = false →
      (requestBatchTotalDecryption s sender now batchId = .error .CooldownActive ↔
        now < s.lastDecryptionRequestTime sender + s.cooldownSeconds)) ∧
    (sender = s.owner →
      setCooldownSeconds s sender v = .ok { s with
        cooldownSeconds := v,
        events := s.events ++ [.CooldownSecondsSet s.cooldownSeconds v] }) := by
  refine ⟨?_, ?_, ?_⟩
  · intro hup
    constructor
    · intro heq
      by_contra hcd
      rw [submitTip, if_neg (by simp [hup]), if_neg hcd] at heq
      dsimp only at heq
      split_ifs at heq <;> simp_all
    · intro hcd
      rw [submitTip, if_neg (by simp [hup]), if_pos hcd]
  · intro hp hup
    constructor
    · intro heq
      by_contra hcd
      rw [requestBatchTotalDecryption, if_neg (by simp [hp]),
        if_neg (by simp [hup]), if_neg hcd] at heq
      dsimp only at heq
      split_ifs at heq <;> simp_all
    · intro hcd
      rw [requestBatchTotalDecryption, if_neg (by simp [hp]),
        if_neg (by simp [hup]), if_pos hcd]
  · intro hs
    rw [setCooldownSeconds, if_neg (by simp [hs])]

/-- Witness for C7: in the deployment state address 5 submitting at time
30 is inside the 60 second window and fails `CooldownActive`, and the
owner resets the shared cooldown to 10. -/
theorem c7_cooldown_gate_witness :
    submitTip s0 5 30 3 3 3 = .error .CooldownActive ∧
    setCooldownSeconds s0 1 10 = .ok { s0 with
      cooldownSeconds := 10,
      events := s0.events ++ [.CooldownSecondsSet s0.cooldownSeconds 10] } :=
  ⟨((c7_cooldown_gate s0 5 30 3 3 3 0 10).1 rfl).mpr (by decide),
   (c7_cooldown_gate s0 1 30 3 3 3 0 10).2.2 rfl⟩

/-- Claim C8: for the owner, `addProvider` of an existing provider and
`removeProvider` of a non-provider return the state entirely unchanged —
in particular no event is appended — and running either operation twice
in a row yields the same state as running it once. -/
theorem c8_provider_idempotent (s : State) (sender p : Address)
    (hs : sender = s.owner) :
    (s.isProvider p = true → addProvider s sender p = .ok s) ∧
    (s.isProvider p = false → removeProvider s sender p = .ok s) ∧
    (addProvider (applyTx s (addProvider s sender p)) sender p
      = .ok (applyTx s (addProvider s sender p))) ∧
    (removeProvider (applyTx s (removeProvider s sender p)) sender p
      = .ok (applyTx s (removeProvider s sender p))) := by
  refine ⟨?_, ?_, ?_, ?_⟩
  · intro hp
    rw [addProvider, if_neg (by simp [hs]), if_pos hp]
  · intro hp
    rw [removeProvider, if_neg (by simp [hs]), if_pos hp]
  · have hown : ∀ s2 : State, addProvider s sender p = .ok s2 →
        s2.owner = s.owner ∧ s2.isProvider p = true := by
      intro s2 h2
      rw [addProvider, if_neg (by simp [hs])] at h2
      split_ifs at h2 with hcase
      · injection h2 with h2; subst h2; exact ⟨rfl, hcase⟩
      · injection h2 with h2; subst h2
        refine ⟨rfl, ?_⟩
        dsimp only
        rw [updMap_same]
    cases hres : addProvider s sender p with
    | error e =>
        rw [addProvider, if_neg (by simp [hs])] at hres
        split_ifs at hres
    | ok s2 =>
        dsimp only [applyTx]
        rcases hown s2 hres with ⟨ho, hp2⟩
        rw [addProvider, if_neg (by simp [hs, ho]), if_pos hp2]
  · have hown : ∀ s2 : State, removeProvider s sender p = .ok s2 →
        s2.owner = s.owner ∧ s2.isProvider p = false := by
      intro s2 h2
      rw [removeProvider, if_neg (by simp [hs])] at h2
      split_ifs at h2 with hcase
      · injection h2 with h2; subst h2; exact ⟨rfl, hcase⟩
      · injection h2 with h2; subst h2
        refine ⟨rfl, ?_⟩
        dsimp only
        rw [updMap_same]
    cases hres : removeProvider s sender p with
    | error e =>
        rw [removeProvider, if_neg (by simp [hs])] at hres
        split_ifs at hres
    | ok s2 =>
        dsimp only [applyTx]
        rcases hown s2 hres with ⟨ho, hp2⟩
        rw [removeProvider, if_neg (by simp [hs, ho]), if_pos hp2]

/-- Witness for C8: re-adding the deployer (already a provider) is a
silent no-op, and removing the non-provider address 7 twice equals
removing it once. -/
theorem c8_provider_idempotent_witness :
    s0.isProvider 1 = true ∧
    addProvider s0 1 1 = .ok s0 ∧
    removeProvider (applyTx s0 (removeProvider s0 1 7)) 1 7
      = .ok (applyTx s0 (removeProvider s0 1 7)) :=
  ⟨rfl,
   (c8_provider_idempotent s0 1 1 rfl).1 rfl,
   (c8_provider_idempotent s0 1 7 rfl).2.2.2⟩

/-- Claim C9: a callback for a request id the contract never issued (any
id at or above the oracle counter, whose context slot is still the
default) always reverts with `NotInitialized`: the default context points
at sentinel batch 0, whose running total is permanently the uninitialized
null handle, and the failure happens before the proof check; consequently
no `DecryptionCompleted` event is appended and no context is marked
processed. -/
theorem c9_unknown_request (deployer selfAddr : Address) (f0 : FheEnv) (s : State)
    (verify : Nat → Nat → List Nat → Bool) (r c : Nat) (p : List Nat)
    (hre : Reachable deployer selfAddr f0 s) (hr : s.nextRequestId ≤ r) :
    myCallback s verify r c p = .error .NotInitialized ∧
    applyTx s (myCallback s verify r c p) = s := by
  have hInv := inv_reachable hre
  have hlen := hInv.batches_ne
  have hdef : s.decryptionContexts r = dctxDefault := hInv.ctx_fresh r hr
  have h0 : s.batchTotalEncryptedAmount 0 = 0 := (hInv.count_total 0).mp hInv.count0
  have hmain : myCallback s verify r c p = .error .NotInitialized := by
    rw [myCallback, if_neg (by simp [hdef, dctxDefault]),
      if_neg (by rw [hdef]; dsimp only [dctxDefault]; omega),
      if_pos (by simp [hdef, dctxDefault, isInitialized, h0])]
  exact ⟨hmain, by rw [hmain]; rfl⟩

/-- Witness for C9: in the deployment state no request was ever issued,
and a callback for request id 5 fails `NotInitialized`. -/
theorem c9_unknown_request_witness :
    s0.nextRequestId ≤ 5 ∧
    myCallback s0 vTrue 5 8 [] = .error .NotInitialized :=
  ⟨by decide, (c9_unknown_request 1 2 fhe0 s0 vTrue 5 8 [] reach_s0 (by decide)).1⟩

/-- Claim C10: `transferOwnership` by the owner succeeds and produces the
state that differs only in the `owner` field (and the appended ownership
event): providers, paused flag, cooldown, timers, tips, batches, counts,
totals and decryption contexts are untouched; in particular the provider
flag of every address — the previous owner, made a provider at
construction, and the new owner alike — is exactly what it was before.
The deployer is a provider in the deployment state. -/
theorem c10_transferOwnership_frame (deployer selfAddr : Address) (f0 : FheEnv)
    (s : State) (sender newOwner : Address) (hs : sender = s.owner) :
    transferOwnership s sender newOwner = .ok { s with
      owner := newOwner,
      events := s.events ++ [.OwnershipTransferred s.owner newOwner] } ∧
    (∀ q, (applyTx s (transferOwnership s sender newOwner)).isProvider q
      = s.isProvider q) ∧
    (initialState deployer selfAddr f0).isProvider deployer = true := by
  have h1 : transferOwnership s sender newOwner = .ok { s with
      owner := newOwner,
      events := s.events ++ [.OwnershipTransferred s.owner newOwner] } := by
    rw [transferOwnership, if_neg (by simp [hs])]
  refine ⟨h1, ?_, ?_⟩
  · intro q
    rw [h1]
    rfl
  · dsimp only [initialState]
    rw [updMap_same]

/-- Witness for C10: after the deployer (address 1) hands ownership to
address 3, address 1 keeps exactly the provider status it had — which is
`true`, granted at construction. -/
theorem c10_transferOwnership_frame_witness :
    (applyTx s0 (transferOwnership s0 1 3)).isProvider 1 = s0.isProvider 1 ∧
    (initialState 1 2 fhe0).isProvider 1 = true ∧
    s0.isProvider 1 = true :=
  ⟨(c10_transferOwnership_frame 1 2 fhe0 s0 1 3 rfl).2.1 1,
   (c10_transferOwnership_frame 1 2 fhe0 s0 1 3 rfl).2.2,
   rfl⟩

end NFTTippingJar
